import Mathlib

/-!
Verification of the error-handling / logging / health-check core of the
gitmesh website repository.

The TypeScript sources are shallowly embedded: pure computations become
Lean functions; the effectful parts (file system, clock, the retried
operation) are determinized by passing their observable outcomes in as
explicit inputs.  JavaScript strings are modelled by `String` / `List Char`,
JavaScript numbers by `Nat` (delays, sizes, counters) or `ℚ` (the
availability percentage, where two-decimal rounding matters).
-/

/-! ### Generic string helpers

JavaScript's `String.prototype.startsWith`, `endsWith`, `includes` and
`replace` (first occurrence), modelled on `List Char`. -/

/-- Boolean test that `pat` occurs at the start of `l` (JS `startsWith`). -/
def hasPre : List Char → List Char → Bool
  | [], _ => true
  | _ :: _, [] => false
  | p :: ps, c :: cs => p == c && hasPre ps cs

/-- Boolean test that `pat` occurs at the end of `l` (JS `endsWith`). -/
def hasSuf (pat l : List Char) : Bool :=
  hasPre pat.reverse l.reverse

/-- Boolean test that `pat` occurs somewhere inside `l` (JS `includes`). -/
def hasSub (pat : List Char) : List Char → Bool
  | [] => pat.isEmpty
  | c :: rest => hasPre pat (c :: rest) || hasSub pat rest

/-- Replace the first occurrence of `pat` in `l` by `rep`; if `pat` does not
occur, return `l` unchanged (JS `String.prototype.replace` with a string
pattern). -/
def replaceFirst (pat rep : List Char) : List Char → List Char
  | [] => []
  | c :: rest =>
    if hasPre pat (c :: rest) then rep ++ (c :: rest).drop pat.length
    else c :: replaceFirst pat rep rest

theorem hasPre_iff (p l : List Char) : hasPre p l = true ↔ ∃ t, l = p ++ t := by
  induction p generalizing l with
  | nil => simp [hasPre]
  | cons x xs ih =>
    cases l with
    | nil => simp [hasPre]
    | cons c cs =>
      simp only [hasPre, Bool.and_eq_true, beq_iff_eq, ih, List.cons_append,
        List.cons.injEq]
      constructor
      · rintro ⟨rfl, t, rfl⟩; exact ⟨t, rfl, rfl⟩
      · rintro ⟨t, rfl, rfl⟩; exact ⟨rfl, t, rfl⟩

theorem hasSuf_iff (p l : List Char) : hasSuf p l = true ↔ ∃ b, l = b ++ p := by
  rw [hasSuf, hasPre_iff]
  constructor
  · rintro ⟨t, ht⟩
    refine ⟨t.reverse, ?_⟩
    have := congrArg List.reverse ht
    simpa using this
  · rintro ⟨b, rfl⟩
    exact ⟨b.reverse, by simp⟩

theorem hasSub_iff (p l : List Char) : hasSub p l = true ↔ ∃ b a, l = b ++ p ++ a := by
  induction l with
  | nil =>
    simp only [hasSub, List.isEmpty_iff]
    constructor
    · rintro rfl; exact ⟨[], [], rfl⟩
    · rintro ⟨b, a, h⟩
      rcases List.append_eq_nil.mp h.symm with ⟨h1, h2⟩
      exact (List.append_eq_nil.mp h1).2
  | cons c rest ih =>
    simp only [hasSub, Bool.or_eq_true, hasPre_iff, ih]
    constructor
    · rintro (⟨t, ht⟩ | ⟨b, a, rfl⟩)
      · exact ⟨[], t, by simpa using ht⟩
      · exact ⟨c :: b, a, rfl⟩
    · rintro ⟨b, a, hb⟩
      cases b with
      | nil => exact Or.inl ⟨a, by simpa using hb⟩
      | cons b0 bs =>
        simp only [List.cons_append, List.cons.injEq] at hb
        exact Or.inr ⟨bs, a, hb.2⟩

theorem replaceFirst_spec (pat rep l : List Char) (hne : pat ≠ [])
    (hocc : hasSub pat l = true) :
    ∃ b a, l = b ++ pat ++ a ∧ replaceFirst pat rep l = b ++ rep ++ a := by
  induction l with
  | nil =>
    exfalso
    rw [hasSub, List.isEmpty_iff] at hocc
    exact hne hocc
  | cons c rest ih =>
    by_cases hp : hasPre pat (c :: rest) = true
    · rcases (hasPre_iff pat (c :: rest)).mp hp with ⟨t, ht⟩
      refine ⟨[], t, by simpa using ht, ?_⟩
      rw [replaceFirst, if_pos hp, ht]
      simp [List.drop_left]
    · have hrest : hasSub pat rest = true := by
        rw [hasSub, Bool.or_eq_true] at hocc
        rcases hocc with h | h
        · exact absurd h hp
        · exact h
      rcases ih hrest with ⟨b, a, hba, hrw⟩
      refine ⟨c :: b, a, by simp [hba], ?_⟩
      rw [replaceFirst, if_neg hp, hrw]
      simp

/-! ### Error classification and retry engine

Embedding of `withRetry` / `isErrorRetryable` from the error-handling
module.  A JavaScript error is modelled by its observable fields used by the
classifier: `message`, an optional string `code`, and an optional numeric
`status`.  The retried operation is determinized as a function from the
0-based invocation index to that invocation's outcome. -/

/-- Observable shape of a thrown error, as read by `isErrorRetryable`. -/
structure ErrV where
  message : String
  code : Option String
  status : Option Int
deriving DecidableEq, Repr

/-- Retry configuration (`RetryConfig` in the source). -/
structure RetryConfig where
  maxAttempts : Nat
  baseDelay : Nat
  maxDelay : Nat
  backoffMultiplier : Nat
  retryableErrors : Option (List String)
deriving DecidableEq, Repr

/-- Classifier `isErrorRetryable(error, retryableErrors)`: with an explicit
pattern list, the error is retryable when its lower-cased message contains a
lower-cased pattern or its code equals the pattern; without one, a default
heuristic on the message / code / status applies. -/
def isErrorRetryable (e : ErrV) (retryableErrors : Option (List String)) : Bool :=
  match retryableErrors with
  | none =>
    hasSub ("timeout".toList) e.message.toList ||
    hasSub ("network".toList) e.message.toList ||
    hasSub ("ECONNRESET".toList) e.message.toList ||
    hasSub ("ENOTFOUND".toList) e.message.toList ||
    (e.code == some "ECONNRESET") ||
    (e.code == some "ETIMEDOUT") ||
    (match e.status with
     | some s => decide (500 ≤ s)
     | none => false)
  | some pats =>
    pats.any fun p =>
      hasSub (p.toLower.toList) (e.message.toLower.toList) || e.code == some p

/-- Backoff delay computed inside the catch block of `withRetry` after the
attempt counter has been incremented to `attempt`:
`Math.min(baseDelay * backoffMultiplier ** (attempt - 1), maxDelay)`. -/
def retryDelay (cfg : RetryConfig) (attempt : Nat) : Nat :=
  min (cfg.baseDelay * cfg.backoffMultiplier ^ (attempt - 1)) cfg.maxDelay

/-- Observable trace of one `withRetry` run: the final outcome (`.error none`
models the `throw lastError` reached with `lastError` still undefined, which
only happens when `maxAttempts = 0`), the number of invocations of the
operation, and the list of back-off delays slept, in order. -/
structure RetryTrace (α : Type) where
  result : Except (Option ErrV) α
  invocations : Nat
  delays : List Nat
deriving Repr

/-- One step of the `while (attempt < config.maxAttempts)` loop of
`withRetry`.  `fuel` is the number of loop iterations still allowed,
maintained as `cfg.maxAttempts - attempt`; `attempt` is the current value of
the attempt counter (also the 0-based index of the next invocation). -/
def withRetryAux {α : Type} (op : Nat → Except ErrV α) (cfg : RetryConfig) :
    Nat → Nat → RetryTrace α
  | _attempt, 0 => { result := .error none, invocations := 0, delays := [] }
  | attempt, fuel + 1 =>
    match op attempt with
    | .ok v => { result := .ok v, invocations := 1, delays := [] }
    | .error e =>
      if isErrorRetryable e cfg.retryableErrors = true ∧ attempt + 1 < cfg.maxAttempts then
        let rest := withRetryAux op cfg (attempt + 1) fuel
        { result := rest.result, invocations := rest.invocations + 1,
          delays := retryDelay cfg (attempt + 1) :: rest.delays }
      else
        { result := .error (some e), invocations := 1, delays := [] }

/-- Trace of `withRetry(operation, config)` starting from `attempt = 0`. -/
def withRetry {α : Type} (op : Nat → Except ErrV α) (cfg : RetryConfig) : RetryTrace α :=
  withRetryAux op cfg 0 cfg.maxAttempts

/-- Unfolding lemma for one loop iteration whose invocation fails. -/
theorem withRetryAux_err {α : Type} (op : Nat → Except ErrV α) (cfg : RetryConfig)
    (attempt fuel : Nat) (e : ErrV) (hop : op attempt = .error e) :
    withRetryAux op cfg attempt (fuel + 1) =
      if isErrorRetryable e cfg.retryableErrors = true ∧ attempt + 1 < cfg.maxAttempts then
        { result := (withRetryAux op cfg (attempt + 1) fuel).result,
          invocations := (withRetryAux op cfg (attempt + 1) fuel).invocations + 1,
          delays := retryDelay cfg (attempt + 1)
            :: (withRetryAux op cfg (attempt + 1) fuel).delays }
      else { result := .error (some e), invocations := 1, delays := [] } := by
  simp only [withRetryAux, hop]

/-- Unfolding lemma for one loop iteration whose invocation succeeds. -/
theorem withRetryAux_ok {α : Type} (op : Nat → Except ErrV α) (cfg : RetryConfig)
    (attempt fuel : Nat) (v : α) (hop : op attempt = .ok v) :
    withRetryAux op cfg attempt (fuel + 1) =
      { result := .ok v, invocations := 1, delays := [] } := by
  simp only [withRetryAux, hop]

/-- Main loop invariant used for C1 and C4: from attempt counter `attempt`
with `cfg.maxAttempts = attempt + n + 1`, an operation whose every
invocation fails with a retryable error is invoked `n + 1` more times, the
delays slept are `retryDelay` of the attempt counters `attempt+1 … attempt+n`,
and the final outcome is the error of the last invocation. -/
theorem withRetryAux_allFail {α : Type} (op : Nat → Except ErrV α) (cfg : RetryConfig)
    (hfail : ∀ i, ∃ e, op i = .error e ∧ isErrorRetryable e cfg.retryableErrors = true) :
    ∀ n attempt, cfg.maxAttempts = attempt + n + 1 →
      (withRetryAux op cfg attempt (n + 1)).invocations = n + 1 ∧
      (withRetryAux op cfg attempt (n + 1)).delays
        = (List.range' (attempt + 1) n).map (retryDelay cfg) ∧
      ∃ e, op (attempt + n) = .error e ∧
        (withRetryAux op cfg attempt (n + 1)).result = .error (some e) := by
  intro n
  induction n with
  | zero =>
    intro attempt hmax
    rcases hfail attempt with ⟨e, hop, _hret⟩
    have hlt : ¬ (isErrorRetryable e cfg.retryableErrors = true ∧ attempt + 1 < cfg.maxAttempts) := by
      rintro ⟨_, hlt⟩; omega
    rw [withRetryAux_err op cfg attempt 0 e hop, if_neg hlt]
    exact ⟨rfl, by simp, e, by simpa using hop, rfl⟩
  | succ n ih =>
    intro attempt hmax
    rcases hfail attempt with ⟨e, hop, hret⟩
    have hcond : isErrorRetryable e cfg.retryableErrors = true ∧ attempt + 1 < cfg.maxAttempts :=
      ⟨hret, by omega⟩
    have hmax' : cfg.maxAttempts = (attempt + 1) + n + 1 := by omega
    rcases ih (attempt + 1) hmax' with ⟨hinv, hdel, e', hop', hres⟩
    rw [withRetryAux_err op cfg attempt (n + 1) e hop, if_pos hcond]
    refine ⟨by simpa using hinv, ?_, e', ?_, by simpa using hres⟩
    · simp only [hdel, List.range'_succ, List.map_cons]
    · have h : attempt + 1 + n = attempt + (n + 1) := by omega
      rwa [h] at hop'

/-- Sample error whose message matches the default retryability heuristic. -/
def timeoutErr : ErrV := { message := "timeout", code := none, status := none }

/-- Sample error matching nothing in the default retryability heuristic. -/
def boomErr : ErrV := { message := "boom", code := none, status := none }

/-- Sample two-attempt retry policy using the default classifier. -/
def cfgTwo : RetryConfig :=
  { maxAttempts := 2, baseDelay := 100, maxDelay := 1000,
    backoffMultiplier := 2, retryableErrors := none }

/-- The representative policy of the spec: base 1000 ms, multiplier 2,
cap 10000 ms (six attempts so that the cap is reached). -/
def cfgSpec : RetryConfig :=
  { maxAttempts := 6, baseDelay := 1000, maxDelay := 10000,
    backoffMultiplier := 2, retryableErrors := none }

/-- Operation every invocation of which fails with `timeoutErr`. -/
def opAlwaysTimeout : Nat → Except ErrV Unit := fun _ => .error timeoutErr

/-- Operation every invocation of which fails with `boomErr`. -/
def opAlwaysBoom : Nat → Except ErrV Unit := fun _ => .error boomErr

/-- C1: for every RetryConfig with `maxAttempts = n ≥ 1` and every operation
each of whose invocations fails with a retryable error, `withRetry` invokes
the operation exactly `n` times and finally throws the error produced by the
`n`-th (last) invocation. -/
theorem claims_C1 {α : Type} (cfg : RetryConfig) (op : Nat → Except ErrV α)
    (h1 : 1 ≤ cfg.maxAttempts)
    (hfail : ∀ i, ∃ e, op i = .error e ∧ isErrorRetryable e cfg.retryableErrors = true) :
    (withRetry op cfg).invocations = cfg.maxAttempts ∧
    ∃ e, op (cfg.maxAttempts - 1) = .error e ∧
      (withRetry op cfg).result = .error (some e) := by
  obtain ⟨n, hn⟩ : ∃ n, cfg.maxAttempts = n + 1 := ⟨cfg.maxAttempts - 1, by omega⟩
  have h := withRetryAux_allFail op cfg hfail n 0 (by omega)
  rcases h with ⟨hinv, _hdel, e, hope, hres⟩
  refine ⟨?_, e, ?_, ?_⟩
  · rw [withRetry, hn]; exact hinv
  · rw [hn]; simpa using hope
  · rw [withRetry, hn]; exact hres

/-- Witness for C1 at a concrete policy and operation. -/
theorem claims_C1_witness :
    (withRetry opAlwaysTimeout cfgTwo).invocations = cfgTwo.maxAttempts ∧
    ∃ e, opAlwaysTimeout (cfgTwo.maxAttempts - 1) = .error e ∧
      (withRetry opAlwaysTimeout cfgTwo).result = .error (some e) :=
  claims_C1 cfgTwo opAlwaysTimeout (by decide)
    (fun _ => ⟨timeoutErr, rfl, by decide⟩)

/-- C5: for every RetryConfig with `maxAttempts ≥ 1` and every operation
whose first invocation fails with a non-retryable error, `withRetry` invokes
the operation exactly once, propagates that first error, and sleeps no
retry delay. -/
theorem claims_C5 {α : Type} (cfg : RetryConfig) (op : Nat → Except ErrV α) (e : ErrV)
    (h1 : 1 ≤ cfg.maxAttempts) (hop : op 0 = .error e)
    (hret : isErrorRetryable e cfg.retryableErrors = false) :
    (withRetry op cfg).invocations = 1 ∧
    (withRetry op cfg).result = .error (some e) ∧
    (withRetry op cfg).delays = [] := by
  obtain ⟨n, hn⟩ : ∃ n, cfg.maxAttempts = n + 1 := ⟨cfg.maxAttempts - 1, by omega⟩
  rw [withRetry, hn, withRetryAux_err op cfg 0 n e hop, if_neg]
  · exact ⟨rfl, rfl, rfl⟩
  · rintro ⟨hc, _⟩
    rw [hret] at hc
    cases hc

/-- Witness for C5 at a concrete policy and operation. -/
theorem claims_C5_witness :
    (withRetry opAlwaysBoom cfgTwo).invocations = 1 ∧
    (withRetry opAlwaysBoom cfgTwo).result = .error (some boomErr) ∧
    (withRetry opAlwaysBoom cfgTwo).delays = [] :=
  claims_C5 cfgTwo opAlwaysBoom boomErr (by decide) rfl (by decide)

/-- C3: the retryability classifier: with an explicit pattern list, retryable
iff the message contains some pattern case-insensitively or the code equals
some pattern; with no pattern list, retryable iff the message contains
`timeout`, `network`, `ECONNRESET` or `ENOTFOUND`, or the code is
`ECONNRESET` or `ETIMEDOUT`, or the attached numeric status is at least
500.  Containment is phrased as the existence of a decomposition. -/
theorem claims_C3 (e : ErrV) :
    (∀ pats : List String, isErrorRetryable e (some pats) = true ↔
      ∃ p ∈ pats,
        (∃ b a, e.message.toLower.toList = b ++ p.toLower.toList ++ a) ∨
        e.code = some p) ∧
    (isErrorRetryable e none = true ↔
      (∃ b a, e.message.toList = b ++ "timeout".toList ++ a) ∨
      (∃ b a, e.message.toList = b ++ "network".toList ++ a) ∨
      (∃ b a, e.message.toList = b ++ "ECONNRESET".toList ++ a) ∨
      (∃ b a, e.message.toList = b ++ "ENOTFOUND".toList ++ a) ∨
      e.code = some "ECONNRESET" ∨
      e.code = some "ETIMEDOUT" ∨
      (∃ s : Int, e.status = some s ∧ 500 ≤ s)) := by
  rcases e with ⟨msg, code, status⟩
  constructor
  · intro pats
    simp only [isErrorRetryable, List.any_eq_true, Bool.or_eq_true, hasSub_iff, beq_iff_eq]
  · cases status with
    | none =>
      simp only [isErrorRetryable, Bool.or_eq_true, hasSub_iff, beq_iff_eq]
      simp only [Option.some.injEq, reduceCtorEq, false_and, exists_false, or_false]
      simp only [or_assoc]
    | some s =>
      simp only [isErrorRetryable, Bool.or_eq_true, hasSub_iff, beq_iff_eq,
        decide_eq_true_eq]
      simp only [Option.some.injEq, exists_eq_left']
      simp only [or_assoc]

/-- C4: the backoff delays of a `withRetry` run follow
`min(baseDelay * backoffMultiplier^(k-1), maxDelay)` for the k-th failed
attempt; in particular for base 1000, multiplier 2, cap 10000 the delays are
1000, 2000, 4000, 8000, then 10000 thereafter. -/
theorem claims_C4 :
    (∀ (α : Type) (cfg : RetryConfig) (op : Nat → Except ErrV α),
      (∀ i, ∃ e, op i = .error e ∧ isErrorRetryable e cfg.retryableErrors = true) →
      1 ≤ cfg.maxAttempts →
      (withRetry op cfg).delays
        = (List.range (cfg.maxAttempts - 1)).map
            (fun i => min (cfg.baseDelay * cfg.backoffMultiplier ^ i) cfg.maxDelay)) ∧
    (∀ (cfg : RetryConfig) (k : Nat),
      retryDelay cfg k = min (cfg.baseDelay * cfg.backoffMultiplier ^ (k - 1)) cfg.maxDelay) ∧
    (withRetry opAlwaysTimeout cfgSpec).delays = [1000, 2000, 4000, 8000, 10000] ∧
    (∀ k, 5 ≤ k → retryDelay cfgSpec k = 10000) := by
  refine ⟨?_, fun cfg k => rfl, by decide, ?_⟩
  · intro α cfg op hfail h1
    obtain ⟨n, hn⟩ : ∃ n, cfg.maxAttempts = n + 1 := ⟨cfg.maxAttempts - 1, by omega⟩
    have h := (withRetryAux_allFail op cfg hfail n 0 (by omega)).2.1
    rw [withRetry, hn]
    rw [h]
    simp only [Nat.add_sub_cancel, List.range'_eq_map_range, List.map_map]
    refine List.map_congr_left ?_
    intro i _
    simp [retryDelay, Function.comp, Nat.add_sub_cancel_left]
  · intro k hk
    have h4 : (4 : Nat) ≤ k - 1 := by omega
    have hpow : (2 : Nat) ^ 4 ≤ 2 ^ (k - 1) := Nat.pow_le_pow_right (by omega) h4
    have : (10000 : Nat) ≤ 1000 * 2 ^ (k - 1) := by
      calc (10000 : Nat) ≤ 1000 * 2 ^ 4 := by norm_num
        _ ≤ 1000 * 2 ^ (k - 1) := Nat.mul_le_mul_left 1000 hpow
    simp [retryDelay, cfgSpec, Nat.min_eq_right this]

/-- Witness for C4 at a concrete policy and operation. -/
theorem claims_C4_witness :
    ((withRetry opAlwaysTimeout cfgTwo).delays
      = (List.range (cfgTwo.maxAttempts - 1)).map
          (fun i => min (cfgTwo.baseDelay * cfgTwo.backoffMultiplier ^ i) cfgTwo.maxDelay)) ∧
    retryDelay cfgSpec 7 = 10000 :=
  ⟨claims_C4.1 Unit cfgTwo opAlwaysTimeout (fun _ => ⟨timeoutErr, rfl, by decide⟩) (by decide),
   claims_C4.2.2.2 7 (by decide)⟩

/-! ### Health check aggregation

Embedding of `HealthChecker.runHealthChecks`' status reduction and of the
filesystem probe `HealthChecker.checkFileSystem` from the monitoring
module.  The probes' effectful steps are determinized: each step's outcome
(success, or the thrown error's message) is an input. -/

/-- Status values of a health check (`'healthy' | 'unhealthy' | 'degraded'`). -/
inductive HealthStatus where
  | healthy
  | unhealthy
  | degraded
deriving DecidableEq, Repr

/-- Result of probing one dependency; only the fields the reduction and the
claims read are modelled. -/
structure HealthCheck where
  name : String
  status : HealthStatus
  message : Option String
deriving DecidableEq, Repr

/-- Overall-status reduction of `runHealthChecks`: `unhealthy` wins over
`degraded` wins over `healthy`. -/
def overallStatus (checks : List HealthCheck) : HealthStatus :=
  if checks.any fun c => c.status == HealthStatus.unhealthy then .unhealthy
  else if checks.any fun c => c.status == HealthStatus.degraded then .degraded
  else .healthy

/-- Sample check with a given status. -/
def mkCheck (s : HealthStatus) : HealthCheck :=
  { name := "probe", status := s, message := none }

theorem overallStatus_unhealthy_iff (checks : List HealthCheck) :
    overallStatus checks = .unhealthy ↔ ∃ c ∈ checks, c.status = .unhealthy := by
  simp only [overallStatus]
  split_ifs with h1 h2 <;>
    simp_all [List.any_eq_true, List.any_eq_false, beq_iff_eq]

theorem overallStatus_degraded_iff (checks : List HealthCheck) :
    overallStatus checks = .degraded ↔
      (∀ c ∈ checks, c.status ≠ .unhealthy) ∧ ∃ c ∈ checks, c.status = .degraded := by
  simp only [overallStatus]
  split_ifs with h1 h2 <;>
    simp_all [List.any_eq_true, List.any_eq_false, beq_iff_eq]

theorem overallStatus_healthy_iff (checks : List HealthCheck) :
    overallStatus checks = .healthy ↔
      ∀ c ∈ checks, c.status ≠ .unhealthy ∧ c.status ≠ .degraded := by
  simp only [overallStatus]
  split_ifs with h1 h2
  · simp only [List.any_eq_true, beq_iff_eq] at h1
    rcases h1 with ⟨c, hc, hcu⟩
    exact ⟨fun h => absurd h (by decide), fun h => absurd hcu (h c hc).1⟩
  · simp only [List.any_eq_true, beq_iff_eq] at h2
    rcases h2 with ⟨c, hc, hcd⟩
    exact ⟨fun h => absurd h (by decide), fun h => absurd hcd (h c hc).2⟩
  · rw [Bool.not_eq_true, List.any_eq_false] at h1 h2
    refine ⟨fun _ c hc => ⟨?_, ?_⟩, fun _ => rfl⟩
    · have := h1 c hc
      simpa using this
    · have := h2 c hc
      simpa using this

/-- C2: the overall status is `unhealthy` if some check is `unhealthy`, else
`degraded` if some check is `degraded`, else `healthy`; the reduction is
total (a total function) and order-independent, and the three examples of
the spec reduce as stated. -/
theorem claims_C2 :
    (∀ checks : List HealthCheck,
      (overallStatus checks = .unhealthy ↔ ∃ c ∈ checks, c.status = .unhealthy) ∧
      (overallStatus checks = .degraded ↔
        (∀ c ∈ checks, c.status ≠ .unhealthy) ∧ ∃ c ∈ checks, c.status = .degraded) ∧
      (overallStatus checks = .healthy ↔
        ∀ c ∈ checks, c.status ≠ .unhealthy ∧ c.status ≠ .degraded)) ∧
    (∀ l l' : List HealthCheck, l.Perm l' → overallStatus l = overallStatus l') ∧
    overallStatus [mkCheck .healthy, mkCheck .degraded, mkCheck .healthy] = .degraded ∧
    overallStatus [mkCheck .healthy, mkCheck .unhealthy, mkCheck .degraded] = .unhealthy ∧
    (∀ checks : List HealthCheck,
      (∀ c ∈ checks, c.status = .healthy) → overallStatus checks = .healthy) := by
  refine ⟨?_, ?_, by decide, by decide, ?_⟩
  · intro checks
    exact ⟨overallStatus_unhealthy_iff checks, overallStatus_degraded_iff checks,
      overallStatus_healthy_iff checks⟩
  · intro l l' hperm
    have hany : ∀ f : HealthCheck → Bool, l.any f = l'.any f := by
      intro f
      apply Bool.eq_iff_iff.mpr
      simp only [List.any_eq_true]
      constructor
      · rintro ⟨c, hc, hf⟩; exact ⟨c, hperm.mem_iff.mp hc, hf⟩
      · rintro ⟨c, hc, hf⟩; exact ⟨c, hperm.mem_iff.mpr hc, hf⟩
    simp only [overallStatus, hany]
  · intro checks h
    rw [overallStatus_healthy_iff]
    intro c hc
    rw [h c hc]
    exact ⟨by simp, by simp⟩

/-- Witness for C2's order-independence at a concrete permutation. -/
theorem claims_C2_witness :
    overallStatus [mkCheck .degraded, mkCheck .healthy]
      = overallStatus [mkCheck .healthy, mkCheck .degraded] :=
  claims_C2.2.1 _ _ (List.Perm.swap _ _ _)

/-- Outcomes of the four effectful steps of the filesystem probe: for each
step, `none` means the step succeeded and `some msg` that it threw an error
with message `msg`.  The `unlink` outcome is never read by the probe because
the source swallows cleanup errors (`fs.unlink(testFile).catch(() => ...)`,
commented "Ignore cleanup errors"). -/
structure FsEnv where
  write : Option String
  read : Option String
  parse : Option String
  unlink : Option String
deriving DecidableEq, Repr

/-- Embedding of `HealthChecker.checkFileSystem`: write a marker file, read
it back, parse it, then delete it with errors ignored; `healthy` when write,
read and parse succeed, otherwise `unhealthy` carrying the first failing
step's error message. -/
def checkFileSystem (env : FsEnv) : HealthCheck :=
  match env.write with
  | some e => { name := "File System", status := .unhealthy, message := some e }
  | none =>
    match env.read with
    | some e => { name := "File System", status := .unhealthy, message := some e }
    | none =>
      match env.parse with
      | some e => { name := "File System", status := .unhealthy, message := some e }
      | none =>
        { name := "File System", status := .healthy,
          message := some "Read/write operations successful" }

/-- Counterexample to C8: when only the final delete fails, the probe still
reports `healthy`, contradicting the claim that a failure at any step
including the delete yields `unhealthy`. -/
theorem claims_C8_counterexample :
    (checkFileSystem
      { write := none, read := none, parse := none,
        unlink := some "EACCES: permission denied" }).status = HealthStatus.healthy ∧
    ({ write := none, read := none, parse := none,
       unlink := some "EACCES: permission denied" } : FsEnv).unlink ≠ none := by
  decide

/-- C8 (amended): the probe reports `healthy` iff writing, reading back and
parsing all succeed; a failure at one of those three steps yields
`unhealthy` with the captured error detail, while a failure of the final
delete is ignored. -/
theorem claims_C8 (env : FsEnv) :
    ((checkFileSystem env).status = .healthy ↔
      env.write = none ∧ env.read = none ∧ env.parse = none) ∧
    (∀ msg, env.write = some msg →
      (checkFileSystem env).status = .unhealthy ∧
      (checkFileSystem env).message = some msg) ∧
    (∀ msg, env.write = none → env.read = some msg →
      (checkFileSystem env).status = .unhealthy ∧
      (checkFileSystem env).message = some msg) ∧
    (∀ msg, env.write = none → env.read = none → env.parse = some msg →
      (checkFileSystem env).status = .unhealthy ∧
      (checkFileSystem env).message = some msg) := by
  rcases env with ⟨w, r, p, u⟩
  cases w <;> cases r <;> cases p <;> simp [checkFileSystem]

/-- Witness for C8 (amended) at a concrete probe environment. -/
theorem claims_C8_witness :
    (checkFileSystem
      { write := some "disk full", read := none, parse := none, unlink := none }).status
        = HealthStatus.unhealthy ∧
    (checkFileSystem
      { write := some "disk full", read := none, parse := none, unlink := none }).message
        = some "disk full" :=
  (claims_C8 _).2.1 "disk full" rfl

/-! ### Uptime monitor

Embedding of `UptimeMonitor`.  The ring of recorded outcomes is the list of
booleans in recording order (timestamps are irrelevant to the claims); the
process uptime in milliseconds is an input.  JavaScript's
`Math.round(x * 100) / 100` two-decimal rounding is modelled over `ℚ`,
where `Math.round` on the non-negative values arising here is
`⌊x + 1/2⌋`. -/

/-- JS `Array.prototype.slice(-n)`: the last `n` elements (all if fewer). -/
def takeLast {α : Type} (n : Nat) (l : List α) : List α :=
  l.drop (l.length - n)

/-- Ring capacity of the uptime monitor (`maxChecks` in the source). -/
def maxChecks : Nat := 100

/-- Embedding of `UptimeMonitor.recordCheck`: append, then keep the last
`maxChecks` entries. -/
def recordCheck (checks : List Bool) (isHealthy : Bool) : List Bool :=
  let c := checks ++ [isHealthy]
  if maxChecks < c.length then takeLast maxChecks c else c

/-- JS `Math.round` on the non-negative rationals arising here. -/
def jsRound (q : ℚ) : ℤ := ⌊q + 1 / 2⌋

/-- JS `Math.round(q * 100) / 100`: round to two decimal places. -/
def round2 (q : ℚ) : ℚ := (jsRound (q * 100) : ℚ) / 100

/-- Embedding of `UptimeMonitor.formatUptime`. -/
def formatUptime (ms : Nat) : String :=
  let seconds := ms / 1000
  let minutes := seconds / 60
  let hours := minutes / 60
  let days := hours / 24
  if 0 < days then
    toString days ++ "d " ++ toString (hours % 24) ++ "h " ++ toString (minutes % 60) ++ "m"
  else if 0 < hours then
    toString hours ++ "h " ++ toString (minutes % 60) ++ "m"
  else if 0 < minutes then
    toString minutes ++ "m " ++ toString (seconds % 60) ++ "s"
  else
    toString seconds ++ "s"

/-- Result shape of `UptimeMonitor.getStats`. -/
structure UptimeStats where
  uptime : Nat
  uptimeFormatted : String
  availability : ℚ
  totalChecks : Nat
  recentChecks : Nat
  successfulChecks : Nat
deriving DecidableEq, Repr

/-- Embedding of `UptimeMonitor.getStats`: availability is the percentage of
`true` entries among the last 20 recorded checks (100 when none recorded),
rounded to two decimals. -/
def getStats (uptimeMs : Nat) (checks : List Bool) : UptimeStats :=
  let recent := takeLast 20 checks
  let successful := (recent.filter fun b => b).length
  let availability : ℚ :=
    if 0 < recent.length then ((successful : ℚ) / (recent.length : ℚ)) * 100 else 100
  { uptime := uptimeMs
    uptimeFormatted := formatUptime uptimeMs
    availability := round2 availability
    totalChecks := checks.length
    recentChecks := recent.length
    successfulChecks := successful }

/-- The uptime format the code actually produces, phrased by thresholds on
the millisecond count: three units (days, hours, minutes) from one day on,
two units between one minute and one day, seconds only below one minute.
This is the comparison definition for the amended C9. -/
def formatUptimeAmended (ms : Nat) : String :=
  if 86400000 ≤ ms then
    toString (ms / 86400000) ++ "d " ++ toString (ms / 3600000 % 24) ++ "h "
      ++ toString (ms / 60000 % 60) ++ "m"
  else if 3600000 ≤ ms then
    toString (ms / 3600000) ++ "h " ++ toString (ms / 60000 % 60) ++ "m"
  else if 60000 ≤ ms then
    toString (ms / 60000) ++ "m " ++ toString (ms / 1000 % 60) ++ "s"
  else
    toString (ms / 1000) ++ "s"

theorem div_pos_iff_le (k ms : Nat) (hk : 0 < k) : 0 < ms / k ↔ k ≤ ms := by
  constructor
  · intro h
    by_contra hlt
    rw [Nat.div_eq_of_lt (by omega)] at h
    exact absurd h (by omega)
  · intro h
    exact Nat.div_pos h hk

theorem formatUptime_eq (ms : Nat) : formatUptime ms = formatUptimeAmended ms := by
  have h1 : ms / 1000 / 60 = ms / 60000 := by
    rw [Nat.div_div_eq_div_mul]
  have h2 : ms / 60000 / 60 = ms / 3600000 := by
    rw [Nat.div_div_eq_div_mul]
  have h3 : ms / 3600000 / 24 = ms / 86400000 := by
    rw [Nat.div_div_eq_div_mul]
  have c1 : (0 < ms / 86400000) ↔ 86400000 ≤ ms := div_pos_iff_le _ _ (by omega)
  have c2 : (0 < ms / 3600000) ↔ 3600000 ≤ ms := div_pos_iff_le _ _ (by omega)
  have c3 : (0 < ms / 60000) ↔ 60000 ≤ ms := div_pos_iff_le _ _ (by omega)
  simp only [formatUptime, formatUptimeAmended, h1, h2, h3, c1, c2, c3]

/-- Evaluation rule for the two-decimal rounding in terms of integer
bounds, used to compute `round2` at concrete rationals. -/
theorem round2_eq (q : ℚ) (z : ℤ) (h1 : (z : ℚ) ≤ q * 100 + 1 / 2)
    (h2 : q * 100 + 1 / 2 < z + 1) : round2 q = (z : ℚ) / 100 := by
  rw [round2, jsRound, Int.floor_eq_iff.mpr ⟨h1, h2⟩]

/-- Counterexample to C9: at 1 day, 1 hour, 1 minute and 1 second of uptime
the formatted duration is `1d 1h 1m` — three units, not the claimed two
most significant units (`1d 1h`). -/
theorem claims_C9_counterexample :
    (getStats 90061000 [true]).uptimeFormatted = "1d 1h 1m" ∧
    ("1d 1h 1m".toList.count ' ' + 1 = 3) ∧
    "1d 1h 1m" ≠ "1d 1h" := by
  refine ⟨?_, by decide, by decide⟩
  show formatUptime 90061000 = "1d 1h 1m"
  decide

/-- C9 (amended): for a non-empty ring, availability equals 100 times the
number of `true` entries among the most recent `min(20, length)` checks
divided by `min(20, length)`, rounded to two decimals (15 of 20 giving
exactly 75.00); the uptime string shows days, hours and minutes from one
day on, the most significant two units between one minute and one day, and
seconds only below one minute. -/
theorem claims_C9 :
    (∀ (ms : Nat) (checks : List Bool), checks ≠ [] →
      (getStats ms checks).recentChecks = min 20 checks.length ∧
      (getStats ms checks).availability
        = round2 ((100 * (((takeLast 20 checks).filter fun b => b).length : ℚ))
            / ((min 20 checks.length : Nat) : ℚ))) ∧
    (getStats 0 (List.replicate 15 true ++ List.replicate 5 false)).availability = 75 ∧
    (∀ ms checks, (getStats ms checks).uptimeFormatted = formatUptimeAmended ms) := by
  refine ⟨?_, ?_, fun ms checks => formatUptime_eq ms⟩
  case refine_2 =>
    have step : (getStats 0 (List.replicate 15 true ++ List.replicate 5 false)).availability
        = round2 75 := by
      show round2 _ = round2 75
      congr 1
      rw [if_pos (by decide :
        0 < (takeLast 20 (List.replicate 15 true ++ List.replicate 5 false)).length)]
      have hl : ((takeLast 20 (List.replicate 15 true ++ List.replicate 5 false)).filter
          fun b => b).length = 15 := by decide
      have hlen : (takeLast 20 (List.replicate 15 true ++ List.replicate 5 false)).length = 20 := by
        decide
      rw [hl, hlen]
      norm_num
    rw [step, round2_eq 75 7500 (by norm_num) (by norm_num)]
    norm_num
  intro ms checks hne
  have hlen : 0 < checks.length := List.length_pos.mpr hne
  have hrec : (takeLast 20 checks).length = min 20 checks.length := by
    simp only [takeLast, List.length_drop]
    omega
  refine ⟨hrec, ?_⟩
  show round2 (if 0 < (takeLast 20 checks).length then
      ((((takeLast 20 checks).filter fun b => b).length : ℚ)
        / ((takeLast 20 checks).length : ℚ)) * 100 else 100) = _
  rw [if_pos (by omega : 0 < (takeLast 20 checks).length), hrec]
  congr 1
  rw [div_mul_eq_mul_div, mul_comm]

/-- Witness for C9 (amended) at a concrete two-element ring. -/
theorem claims_C9_witness :
    (getStats 3 [true, false]).recentChecks = min 20 ([true, false] : List Bool).length ∧
    (getStats 3 [true, false]).availability
      = round2 ((100 * (((takeLast 20 [true, false]).filter fun b => b).length : ℚ))
          / ((min 20 ([true, false] : List Bool).length : Nat) : ℚ)) :=
  claims_C9.1 3 [true, false] (by decide)

/-- C10: on an empty ring (no `recordCheck` call yet), `getStats` reports
availability 100 with zero successful, recent and total checks. -/
theorem claims_C10 (ms : Nat) :
    (getStats ms []).availability = 100 ∧
    (getStats ms []).successfulChecks = 0 ∧
    (getStats ms []).recentChecks = 0 ∧
    (getStats ms []).totalChecks = 0 := by
  refine ⟨?_, rfl, rfl, rfl⟩
  show round2 100 = 100
  rw [round2_eq 100 10000 (by norm_num) (by norm_num)]
  norm_num

/-! ### Rotating error logger

Embedding of `ServerErrorLogger.getRecentLogs` / `rotateLogs` (the
`ErrorLogger` copies in the client module are line-for-line identical).
The directory listing, file reads and JSON parses are determinized: the
world is the list of files in the log directory, each carrying the outcome
of reading it and, per line, the outcome of parsing it. -/

/-- Filename filter of the logger:
`file.startsWith('error-') && file.endsWith('.log')`. -/
def isLogName (n : String) : Bool :=
  hasPre ("error-".toList) n.toList && hasSuf (".log".toList) n.toList

/-- One line of a log file as seen by `getRecentLogs`: whitespace-only
(skipped by `if (!line.trim()) continue`), unparseable JSON (skipped by the
inner catch), or a parsed record, abstracted by a numeric identifier. -/
inductive LineItem where
  | blank : LineItem
  | bad : LineItem
  | record : Nat → LineItem
deriving DecidableEq, Repr

/-- A file in the log directory as seen by `getRecentLogs`: its name and
the outcome of reading it (`none` when `readFile` throws, which the
per-file catch skips). -/
structure LogFileR where
  name : String
  content : Option (List LineItem)
deriving DecidableEq, Repr

/-- Name order used to sort the per-file loop. -/
def fileLe (a b : LogFileR) : Prop := a.name ≤ b.name

instance : DecidableRel fileLe := fun a b => inferInstanceAs (Decidable (a.name ≤ b.name))

/-- The matching log files sorted descending by filename
(`files.filter(...).sort().reverse()`). -/
def sortFilesDesc (files : List LogFileR) : List LogFileR :=
  (List.insertionSort fileLe (files.filter fun f => isLogName f.name)).reverse

/-- The successfully parsed records of a line list, in order. -/
def goodLines (ls : List LineItem) : List Nat :=
  ls.filterMap fun li =>
    match li with
    | .record r => some r
    | _ => none

/-- Inner line loop of `getRecentLogs`: walk the (already reversed) lines,
skip blanks and parse failures, append records, stop at `limit`. -/
def collectLines (limit : Nat) : List Nat → List LineItem → List Nat
  | acc, [] => acc
  | acc, li :: rest =>
    if limit ≤ acc.length then acc
    else
      match li with
      | .blank => collectLines limit acc rest
      | .bad => collectLines limit acc rest
      | .record r => collectLines limit (acc ++ [r]) rest

/-- Outer file loop of `getRecentLogs`: walk the files, skip unreadable
ones, collect lines newest-first, stop at `limit`. -/
def collectFiles (limit : Nat) : List Nat → List LogFileR → List Nat
  | acc, [] => acc
  | acc, f :: rest =>
    if limit ≤ acc.length then acc
    else
      match f.content with
      | none => collectFiles limit acc rest
      | some lines => collectFiles limit (collectLines limit acc lines.reverse) rest

/-- Embedding of `getRecentLogs(limit)`: `none` for the world models a
top-level failure (the outer catch returns `[]`). -/
def getRecentLogs (limit : Nat) (world : Option (List LogFileR)) : List Nat :=
  match world with
  | none => []
  | some files => collectFiles limit [] (sortFilesDesc files)

/-- Declarative description of the records `getRecentLogs` should return:
files in descending filename order, lines within a file reversed, records
of unparseable lines and unreadable files skipped, truncated at `limit`. -/
def recentLogsSpec (limit : Nat) (files : List LogFileR) : List Nat :=
  ((sortFilesDesc files).flatMap fun f =>
    match f.content with
    | none => []
    | some ls => goodLines ls.reverse).take limit

theorem collectLines_eq (limit : Nat) (items : List LineItem) :
    ∀ acc, collectLines limit acc items = acc ++ (goodLines items).take (limit - acc.length) := by
  induction items with
  | nil => intro acc; simp [collectLines, goodLines]
  | cons li rest ih =>
    intro acc
    simp only [collectLines]
    by_cases hfull : limit ≤ acc.length
    · rw [if_pos hfull]
      have h0 : limit - acc.length = 0 := by omega
      simp [h0]
    · rw [if_neg hfull]
      cases li with
      | blank => exact ih acc
      | bad => exact ih acc
      | record r =>
        show collectLines limit (acc ++ [r]) rest = _
        rw [ih (acc ++ [r])]
        have hg : goodLines (LineItem.record r :: rest) = r :: goodLines rest := rfl
        have hlen : (acc ++ [r]).length = acc.length + 1 := by simp
        have ht : limit - acc.length = (limit - (acc.length + 1)) + 1 := by omega
        rw [hg, hlen, ht, List.take_succ_cons]
        simp

theorem collectFiles_eq (limit : Nat) (files : List LogFileR) :
    ∀ acc, collectFiles limit acc files
      = acc ++ ((files.flatMap fun f =>
          match f.content with
          | none => []
          | some ls => goodLines ls.reverse).take (limit - acc.length)) := by
  induction files with
  | nil => intro acc; simp [collectFiles]
  | cons f rest ih =>
    intro acc
    simp only [collectFiles]
    by_cases hfull : limit ≤ acc.length
    · rw [if_pos hfull]
      have h0 : limit - acc.length = 0 := by omega
      simp [h0]
    · rw [if_neg hfull]
      cases hc : f.content with
      | none =>
        rw [ih acc]
        simp only [List.flatMap_cons, hc, List.nil_append]
      | some ls =>
        show collectFiles limit (collectLines limit acc ls.reverse) rest = _
        rw [collectLines_eq, ih]
        have hr : ((f :: rest).flatMap fun g =>
              match g.content with
              | none => ([] : List Nat)
              | some gs => goodLines gs.reverse)
            = goodLines ls.reverse ++ (rest.flatMap fun g =>
                match g.content with
                | none => []
                | some gs => goodLines gs.reverse) := by
          rw [List.flatMap_cons, hc]
        rw [hr, List.take_append_eq_append_take, ← List.append_assoc]
        congr 2
        simp only [List.length_append, List.length_take]
        rcases Nat.le_total (goodLines ls.reverse).length (limit - acc.length) with h | h
        · rw [Nat.min_eq_right h]
          omega
        · rw [Nat.min_eq_left h]
          omega

/-- C7: `getRecentLogs(limit)` returns at most `limit` records; on a
readable directory it returns exactly the records of the files in
descending filename order, lines within each file reversed, skipping
unparseable lines and unreadable files, truncated at `limit`; and a
top-level failure yields the empty list rather than an exception. -/
theorem claims_C7 :
    (∀ limit world, (getRecentLogs limit world).length ≤ limit) ∧
    (∀ limit files, getRecentLogs limit (some files) = recentLogsSpec limit files) ∧
    (∀ limit, getRecentLogs limit none = []) := by
  have key : ∀ limit files, getRecentLogs limit (some files) = recentLogsSpec limit files := by
    intro limit files
    show collectFiles limit [] (sortFilesDesc files) = _
    rw [collectFiles_eq]
    simp [recentLogsSpec]
  refine ⟨?_, key, fun limit => rfl⟩
  intro limit world
  cases world with
  | none => simp [getRecentLogs]
  | some files =>
    rw [key]
    simp [recentLogsSpec]

/-! ### Log rotation -/

/-- Retained-file ceiling of the logger (`maxLogFiles` in the source). -/
def maxLogFiles : Nat := 10

/-- Size ceiling of one log file (`maxLogSize` in the source, 10 MiB). -/
def maxLogSize : Nat := 10 * 1024 * 1024

/-- A file of the log directory as seen by `rotateLogs`: its name and its
size as reported by `stat`. -/
structure FileEntry where
  name : String
  size : Nat
deriving DecidableEq, Repr

/-- Names in the directory matching the log naming pattern. -/
def logFileNames (dir : List FileEntry) : List String :=
  (dir.map FileEntry.name).filter isLogName

/-- The matching names sorted descending by filename
(`files.filter(...).sort().reverse()`). -/
def sortedLogFiles (dir : List FileEntry) : List String :=
  (List.insertionSort (fun a b : String => a ≤ b) (logFileNames dir)).reverse

/-- The first `maxLogFiles` names of the descending list: kept
(`logFiles.slice(0, maxLogFiles)`). -/
def retainedNames (dir : List FileEntry) : List String :=
  (sortedLogFiles dir).take maxLogFiles

/-- The names beyond the retained ceiling: deleted
(`logFiles.slice(maxLogFiles)`). -/
def deletedNames (dir : List FileEntry) : List String :=
  (sortedLogFiles dir).drop maxLogFiles

/-- Replacement text inserted by the archival rename: `-<timestamp>.log`. -/
def archiveRep (ts : String) : List Char :=
  '-' :: (ts.toList ++ ".log".toList)

/-- Archival name: `file.replace('.log', '-' + timestamp + '.log')`. -/
def archiveName (file ts : String) : String :=
  String.mk (replaceFirst (".log".toList) (archiveRep ts) file.toList)

/-- Effect of one `rotateLogs` pass on a single directory entry: matching
names beyond the retained ceiling are unlinked; retained matching names
over the size ceiling are renamed to their archival name; everything else
is untouched. -/
def rotateEntry (dir : List FileEntry) (ts : String) (e : FileEntry) : Option FileEntry :=
  if e.name ∈ deletedNames dir then none
  else if e.name ∈ retainedNames dir ∧ maxLogSize < e.size then
    some { name := archiveName e.name ts, size := e.size }
  else some e

/-- Embedding of one `rotateLogs` pass over the whole directory. -/
def rotateLogs (dir : List FileEntry) (ts : String) : List FileEntry :=
  dir.filterMap (rotateEntry dir ts)

theorem sortedLogFiles_perm (dir : List FileEntry) :
    (sortedLogFiles dir).Perm (logFileNames dir) :=
  (List.reverse_perm _).trans (List.perm_insertionSort _ _)

theorem sortedLogFiles_pairwise (dir : List FileEntry) :
    (sortedLogFiles dir).Pairwise (fun a b => b ≤ a) :=
  List.pairwise_reverse.mpr (List.sorted_insertionSort _ _)

theorem sortedLogFiles_nodup (dir : List FileEntry)
    (h : (dir.map FileEntry.name).Nodup) : (sortedLogFiles dir).Nodup :=
  ((sortedLogFiles_perm dir).nodup_iff).mpr (h.filter _)

theorem mem_sortedLogFiles (dir : List FileEntry) (n : String) :
    n ∈ sortedLogFiles dir ↔ n ∈ logFileNames dir :=
  (sortedLogFiles_perm dir).mem_iff

theorem notMem_deleted_of_retained (dir : List FileEntry)
    (h : (dir.map FileEntry.name).Nodup) {n : String}
    (hn : n ∈ retainedNames dir) : n ∉ deletedNames dir := by
  intro hd
  have hnd := sortedLogFiles_nodup dir h
  rw [← List.take_append_drop maxLogFiles (sortedLogFiles dir)] at hnd
  exact (List.pairwise_append.mp hnd).2.2 n hn n hd rfl

theorem deleted_or_retained (dir : List FileEntry) {n : String}
    (hn : n ∈ logFileNames dir) :
    n ∈ retainedNames dir ∨ n ∈ deletedNames dir := by
  have hmem : n ∈ sortedLogFiles dir := (mem_sortedLogFiles dir n).mpr hn
  rw [← List.take_append_drop maxLogFiles (sortedLogFiles dir), List.mem_append] at hmem
  exact hmem

/-- Counting step: filtering the image of a `filterMap` is bounded by
filtering the sources that can produce a hit. -/
theorem filterMap_filter_le (g : FileEntry → Option FileEntry)
    (p q : FileEntry → Bool) :
    ∀ l : List FileEntry,
      (∀ e ∈ l, ∀ x, g e = some x → p x = true → q e = true) →
      ((l.filterMap g).filter p).length ≤ (l.filter q).length := by
  intro l
  induction l with
  | nil => intro _; simp
  | cons e rest ih =>
    intro h
    have hrest := ih fun e' he' => h e' (List.mem_cons_of_mem _ he')
    have hstep : ((rest.filterMap g).filter p).length ≤ ((e :: rest).filter q).length := by
      rw [List.filter_cons]
      split_ifs
      · exact le_trans hrest (by simp)
      · exact hrest
    rw [List.filterMap_cons]
    cases hg : g e with
    | none => exact hstep
    | some x =>
      by_cases hp : p x = true
      · have hq : q e = true := h e (List.mem_cons_self e rest) x hg hp
        rw [List.filter_cons, if_pos hp, List.filter_cons, if_pos hq]
        simpa using hrest
      · rw [List.filter_cons, if_neg hp]
        exact hstep

/-- With distinct filenames, at most `(retainedNames dir).length` entries of
the directory carry a retained name. -/
theorem filter_retained_le (dir : List FileEntry)
    (h : (dir.map FileEntry.name).Nodup) :
    (dir.filter fun e => decide (e.name ∈ retainedNames dir)).length
      ≤ (retainedNames dir).length := by
  have hsub : List.Sublist
      ((dir.filter fun e => decide (e.name ∈ retainedNames dir)).map FileEntry.name)
      (dir.map FileEntry.name) :=
    (List.filter_sublist dir).map FileEntry.name
  have hnodup : ((dir.filter fun e => decide (e.name ∈ retainedNames dir)).map
      FileEntry.name).Nodup := hsub.nodup h
  have hsubset : ((dir.filter fun e => decide (e.name ∈ retainedNames dir)).map
      FileEntry.name) ⊆ retainedNames dir := by
    intro x hx
    rcases List.mem_map.mp hx with ⟨e, he, rfl⟩
    have := (List.mem_filter.mp he).2
    simpa using this
  have hsp := (hnodup.subperm hsubset).length_le
  simpa using hsp

/-- What one rotation pass guarantees (the conjunction claimed by the spec
for a directory with more than `maxLogFiles` matching files): at most
`maxLogFiles` matching files remain; the deleted names are exactly the ones
beyond the retained ceiling, every one strictly older (smaller in filename
order) than every retained name, and their entries are gone; every retained
entry over the size ceiling survives only under its archival name, vacating
its canonical name; every retained entry within the ceiling survives
unchanged; and the archival name embeds the rotation timestamp. -/
def rotationClaim (dir : List FileEntry) (ts : String) : Prop :=
  ((rotateLogs dir ts).filter fun e => isLogName e.name).length ≤ maxLogFiles ∧
  (deletedNames dir).length = (logFileNames dir).length - maxLogFiles ∧
  (∀ d ∈ deletedNames dir, ∀ r ∈ retainedNames dir, d < r) ∧
  (∀ e ∈ dir, e.name ∈ deletedNames dir → e ∉ rotateLogs dir ts) ∧
  (∀ e ∈ dir, e.name ∈ retainedNames dir → maxLogSize < e.size →
    ({ name := archiveName e.name ts, size := e.size } : FileEntry) ∈ rotateLogs dir ts ∧
    ∀ x ∈ rotateLogs dir ts, x.name ≠ e.name) ∧
  (∀ e ∈ dir, e.name ∈ retainedNames dir → e.size ≤ maxLogSize → e ∈ rotateLogs dir ts) ∧
  (∀ n : String, isLogName n = true →
    ∃ b a, (archiveName n ts).toList = b ++ archiveRep ts ++ a)

/-- C6: one rotation pass over a directory with distinct filenames, more
than 10 matching log files, and a fresh rotation timestamp (no existing
name equals an archival name built from it) leaves at most 10 matching
files, deletes exactly the oldest ones, renames oversized retained files to
timestamped archival names and frees their canonical names. -/
theorem claims_C6 (dir : List FileEntry) (ts : String)
    (hnodup : (dir.map FileEntry.name).Nodup)
    (hmany : maxLogFiles < (logFileNames dir).length)
    (hfresh : ∀ e ∈ dir, ∀ e' ∈ dir, archiveName e'.name ts ≠ e.name) :
    rotationClaim dir ts := by
  refine ⟨?_, ?_, ?_, ?_, ?_, ?_, ?_⟩
  · -- at most maxLogFiles matching files remain
    have hcount := filterMap_filter_le (rotateEntry dir ts)
      (fun e => isLogName e.name) (fun e => decide (e.name ∈ retainedNames dir)) dir ?side
    case side =>
      intro e he x hx hmatch
      rw [decide_eq_true_eq]
      rw [rotateEntry] at hx
      split_ifs at hx with h1 h2
      · exact h2.1
      · cases hx
        have hm : e.name ∈ logFileNames dir := by
          rw [logFileNames, List.mem_filter]
          exact ⟨List.mem_map_of_mem _ he, hmatch⟩
        rcases deleted_or_retained dir hm with hr | hd
        · exact hr
        · exact absurd hd h1
    refine le_trans hcount (le_trans (filter_retained_le dir hnodup) ?_)
    rw [retainedNames]
    exact le_trans (Nat.le_of_eq (List.length_take _ _)) (Nat.min_le_left _ _)
  · -- the number of deleted names
    rw [deletedNames, List.length_drop, (sortedLogFiles_perm dir).length_eq]
  · -- every deleted name is older than every retained name
    intro d hd r hr
    have hp := sortedLogFiles_pairwise dir
    have hn := sortedLogFiles_nodup dir hnodup
    rw [← List.take_append_drop maxLogFiles (sortedLogFiles dir)] at hp hn
    have hle : d ≤ r := (List.pairwise_append.mp hp).2.2 r hr d hd
    have hne : r ≠ d := (List.pairwise_append.mp hn).2.2 r hr d hd
    exact lt_of_le_of_ne hle hne.symm
  · -- entries with deleted names are gone
    intro e he hdel hmem
    rcases List.mem_filterMap.mp hmem with ⟨a, ha, hax⟩
    rw [rotateEntry] at hax
    split_ifs at hax with h1 h2
    · cases hax
      exact hfresh _ he a ha rfl
    · cases hax
      exact h1 hdel
  · -- oversized retained entries survive only under the archival name
    intro e he hret hbig
    constructor
    · refine List.mem_filterMap.mpr ⟨e, he, ?_⟩
      rw [rotateEntry, if_neg (notMem_deleted_of_retained dir hnodup hret),
        if_pos ⟨hret, hbig⟩]
    · intro x hx hxe
      rcases List.mem_filterMap.mp hx with ⟨a, ha, hax⟩
      rw [rotateEntry] at hax
      split_ifs at hax with h1 h2
      · cases hax
        exact hfresh e he a ha hxe
      · cases hax
        have hae : x = e := List.inj_on_of_nodup_map hnodup ha he hxe
        subst hae
        exact h2 ⟨hret, hbig⟩
  · -- retained entries within the size ceiling survive unchanged
    intro e he hret hsmall
    refine List.mem_filterMap.mpr ⟨e, he, ?_⟩
    rw [rotateEntry, if_neg (notMem_deleted_of_retained dir hnodup hret), if_neg]
    rintro ⟨_, hbig⟩
    omega
  · -- the archival name embeds the rotation timestamp
    intro n hln
    rw [isLogName, Bool.and_eq_true] at hln
    rcases (hasSuf_iff _ _).mp hln.2 with ⟨b, hb⟩
    have hocc : hasSub (".log".toList) n.toList = true := by
      rw [hasSub_iff]
      exact ⟨b, [], by rw [List.append_nil]; exact hb⟩
    rcases replaceFirst_spec (".log".toList) (archiveRep ts) n.toList (by decide) hocc
      with ⟨b', a', _, hrw⟩
    refine ⟨b', a', ?_⟩
    have harc : (archiveName n ts).toList
        = replaceFirst (".log".toList) (archiveRep ts) n.toList := rfl
    rw [harc, hrw]

/-- A directory of eleven dated log files, one oversized, as a concrete
rotation scenario. -/
def dirEleven : List FileEntry :=
  [ { name := "error-2024-01-01.log", size := 1 },
    { name := "error-2024-01-02.log", size := 2 },
    { name := "error-2024-01-03.log", size := 3 },
    { name := "error-2024-01-04.log", size := 4 },
    { name := "error-2024-01-05.log", size := 5 },
    { name := "error-2024-01-06.log", size := 6 },
    { name := "error-2024-01-07.log", size := 7 },
    { name := "error-2024-01-08.log", size := 8 },
    { name := "error-2024-01-09.log", size := 9 },
    { name := "error-2024-01-10.log", size := 10485761 },
    { name := "error-2024-01-11.log", size := 11 } ]

/-- Witness for C6 at the concrete eleven-file directory. -/
theorem claims_C6_witness : rotationClaim dirEleven "2024-01-12T00-00-00-000Z" :=
  claims_C6 dirEleven "2024-01-12T00-00-00-000Z" (by decide) (by decide) (by decide)
